import Mathlib

/-!
Verification of the build-orchestration core of a CI runner agent
(`common/build.go`): the unique-slot allocator `AssignID`, the build state
record with `StartBuild`/`FinishBuild`, the repository-URL slug derivation
`ProjectSlug`, the `Run` orchestrator and the `SendBuildLog` status
reporter.  Go code is embedded shallowly: machine `int` becomes `Int`,
`time.Time`/`time.Duration` become `Int` (the current time is passed as an
explicit argument), pointer mutation becomes functional record update, and
external collaborators (executor lookup, the reporting endpoint) become
explicit function/list parameters.
-/

namespace BuildCore

/-! ### String helpers

Executable embeddings of the Go standard-library functions used by
`ProjectSlug`: `strings.Split(·, ":")[0]`, `strings.TrimSuffix`,
`strings.Contains`, `filepath.Join` and `filepath.Clean` (on a
slash-separated Unix path), and the scheme/authority part of `url.Parse`.
They operate on `String.data : List Char`.
-/

/-- Does `sub` occur as a prefix of `l`?  Embeds the prefix test underlying
`strings.Contains`. -/
def strStarts : List Char → List Char → Bool
  | _, [] => true
  | [], _ :: _ => false
  | c :: cs, d :: ds => c = d && strStarts cs ds

/-- Does `sub` occur as a contiguous substring of `l`?  Embeds
`strings.Contains(String.mk l, String.mk sub)`. -/
def strHasSub : List Char → List Char → Bool
  | [], sub => sub.isEmpty
  | c :: cs, sub => strStarts (c :: cs) sub || strHasSub cs sub

/-- Embeds Go `strings.TrimSuffix`: drop `suf` from the end of `s` when it
is a suffix, otherwise return `s` unchanged. -/
def trimSuffix (s suf : String) : String :=
  if strStarts s.data.reverse suf.data.reverse then
    String.mk (s.data.take (s.data.length - suf.data.length))
  else s

/-- Split a character list at every occurrence of `sep`; the result always
has at least one (possibly empty) component.  Embeds `strings.Split` with a
one-character separator. -/
def splitOnChar (sep : Char) : List Char → List (List Char)
  | [] => [[]]
  | c :: cs =>
    let r := splitOnChar sep cs
    if c = sep then [] :: r
    else
      match r with
      | [] => [[c]]
      | h :: t => (c :: h) :: t

/-- Join character-list components with `sep` between consecutive ones. -/
def joinWithChar (sep : Char) : List (List Char) → List Char
  | [] => []
  | [x] => x
  | x :: y :: xs => x ++ sep :: joinWithChar sep (y :: xs)

/-- One pass of Go `filepath.Clean`'s segment processing (the Plan 9
`cleanname` algorithm): skip empty and `.` segments; `..` pops the previous
real segment, disappears at the root of a rooted path, and is kept at the
head of a relative path.  `acc` holds the output segments in reverse. -/
def cleanSegs (rooted : Bool) (acc : List (List Char)) :
    List (List Char) → List (List Char)
  | [] => acc.reverse
  | c :: cs =>
    if c = [] ∨ c = ['.'] then cleanSegs rooted acc cs
    else if c = ['.', '.'] then
      match acc with
      | [] => if rooted then cleanSegs rooted [] cs
              else cleanSegs rooted [['.', '.']] cs
      | h :: t => if h = ['.', '.'] then cleanSegs rooted (c :: acc) cs
                  else cleanSegs rooted t cs
    else cleanSegs rooted (c :: acc) cs

/-- Embeds Go `filepath.Clean` on a Unix (slash-separated) path: empty
input becomes `.`, a rooted path keeps its leading slash, a relative path
that cleans to nothing becomes `.`. -/
def pathClean (s : String) : String :=
  if s = "" then "." else
  let l := s.data
  let rooted := strStarts l ['/']
  let segs := cleanSegs rooted [] (splitOnChar '/' l)
  let joined := joinWithChar '/' segs
  if rooted then String.mk ('/' :: joined)
  else if joined = [] then "." else String.mk joined

/-- Embeds Go `filepath.Join(a, b)`: drop empty elements, join the rest
with a slash, then `Clean`; all-empty input yields `""` uncleaned. -/
def fpJoin2 (a b : String) : String :=
  if a = "" then (if b = "" then "" else pathClean b)
  else if b = "" then pathClean a
  else pathClean (a ++ "/" ++ b)

/-- Embeds `strings.Split(host, ":")[0]`: the part of `h` before the first
colon (all of `h` when there is none). -/
def hostFirst (h : String) : String :=
  String.mk (h.data.takeWhile (fun c => c != ':'))

/-! ### URL parsing

The fragment of Go `net/url.Parse` that `ProjectSlug` relies on: the
scheme is a letter followed by letters/digits/`+`/`-`/`.` up to a colon;
after `scheme:` a `//` introduces an authority, which runs to the next
slash and whose host is the part after the last `@` (user-info); the rest
is the path.  Without a scheme and without `//`, the whole input is a
relative path reference with an empty host.  Percent-decoding and
query/fragment splitting are not modelled: no claim exercises them, and
they cannot make an empty host non-empty. -/

/-- Characters allowed after the first position of a URL scheme. -/
def isSchemeChar (c : Char) : Bool :=
  c.isAlpha || c.isDigit || c = '+' || c = '-' || c = '.'

/-- Scan for `scheme:`, accumulating scheme characters in reverse. -/
def splitSchemeAux : List Char → List Char → Option (List Char × List Char)
  | [], _ => none
  | c :: cs, acc =>
    if c = ':' then some (acc.reverse, cs)
    else if isSchemeChar c then splitSchemeAux cs (c :: acc)
    else none

/-- Split a leading `scheme:` off a URL, if the input has a well-formed
scheme (first character a letter). -/
def splitScheme (l : List Char) : Option (List Char × List Char) :=
  match l with
  | [] => none
  | c :: _ => if c.isAlpha then splitSchemeAux l [] else none

/-- The components of a parsed URL that `ProjectSlug` reads. -/
structure URLParts where
  scheme : String
  host : String
  path : String
deriving Repr, DecidableEq

/-- Authority = up to the first `/`; the remainder (starting with `/`, if
any) is the path. -/
def parseAuthority (l : List Char) : List Char × List Char :=
  (l.takeWhile (fun c => c != '/'), l.dropWhile (fun c => c != '/'))

/-- The host of an authority: the part after the last `@` (Go puts the
part before it into `User`). -/
def hostOfAuthority (auth : List Char) : List Char :=
  ((auth.reverse.takeWhile (fun c => c != '@')).reverse)

/-- Embeds the fragment of Go `url.Parse` described above. -/
def parseURL (s : String) : URLParts :=
  match splitScheme s.data with
  | some (sch, rest) =>
    if strStarts rest ['/', '/'] then
      let ap := parseAuthority (rest.drop 2)
      { scheme := String.mk sch, host := String.mk (hostOfAuthority ap.1),
        path := String.mk ap.2 }
    else
      { scheme := String.mk sch, host := "", path := "" }
  | none =>
    if strStarts s.data ['/', '/'] then
      let ap := parseAuthority (s.data.drop 2)
      { scheme := "", host := String.mk (hostOfAuthority ap.1),
        path := String.mk ap.2 }
    else
      { scheme := "", host := "", path := s }

/-! ### Formatting

A small executable model of `fmt.Sprintf` for the verbs the code uses
(`%d`, `%v`, `%s`); arguments are integers or strings.  A verb with no
remaining argument renders Go's `%!x(MISSING)` marker. -/

/-- An argument passed to the variadic `fmt.Sprintf`. -/
inductive FmtArg where
  | int (n : Int)
  | str (s : String)
deriving Repr, DecidableEq

/-- How `fmt` renders one argument under `%d`/`%v`/`%s`. -/
def fmtArgToString : FmtArg → String
  | .int n => toString n
  | .str s => s

/-- Character-level interpreter for the format string. -/
def sprintfAux : List Char → List FmtArg → List Char
  | [], _ => []
  | ['%'], _ => ['%']
  | '%' :: c :: rest, args =>
    if c = 'd' ∨ c = 'v' ∨ c = 's' then
      match args with
      | a :: as => (fmtArgToString a).data ++ sprintfAux rest as
      | [] => '%' :: '!' :: c :: ('(' :: "MISSING".data ++ [')']) ++ sprintfAux rest []
    else if c = '%' then '%' :: sprintfAux rest args
    else '%' :: c :: sprintfAux rest args
  | c :: rest, args => c :: sprintfAux rest args

/-- Embeds `fmt.Sprintf(f, args...)` for the verbs used in this core. -/
def sprintf (f : String) (args : List FmtArg) : String :=
  String.mk (sprintfAux f.data args)

/-! ### Data model

`Build` embeds the fields of `common.Build` that the verified operations
read or write.  Of the embedded `GetBuildResponse` (declared in the
repository outside this excerpt) only the fields this file's code uses are
kept: `ID`, `ProjectID`, `RepoURL`.  `RunnerConfig.ShortDescription()`
(also declared outside this excerpt) is an observation of the runner
configuration used purely as an identity string, modelled as a stored
field; `Executor` is the configured executor name.  `time.Time` and
`time.Duration` are modelled as `Int`; the log buffer's byte content as a
`String` (its lock guards concurrent access, which a sequential embedding
does not exercise). -/

/-- The runner identity/configuration a build executes under. -/
structure RunnerConfig where
  shortDescription : String
  executor : String
deriving Repr, DecidableEq

/-- The four values of the Go string-typed `BuildState` constants. -/
inductive BuildState where
  | pending
  | running
  | failed
  | success
deriving Repr, DecidableEq

/-- The build record of `common.Build`. -/
structure Build where
  id : Int
  projectID : Int
  repoURL : String
  buildState : BuildState
  buildStarted : Int
  buildFinished : Int
  buildDuration : Int
  buildMessage : String
  buildDir : String
  hostname : String
  runner : RunnerConfig
  globalID : Int
  runnerID : Int
  projectRunnerID : Int
  buildLog : String
deriving Repr, DecidableEq

/-- A build record with every field zero/empty, used to construct concrete
test inputs. -/
def emptyBuild : Build :=
  { id := 0, projectID := 0, repoURL := "", buildState := .pending,
    buildStarted := 0, buildFinished := 0, buildDuration := 0,
    buildMessage := "", buildDir := "", hostname := "",
    runner := { shortDescription := "", executor := "" },
    globalID := 0, runnerID := 0, projectRunnerID := 0, buildLog := "" }

/-! ### Unique-slot allocator (`AssignID`)

The Go code makes one pass over `otherBuilds` filling three used-ID sets
(every build contributes its `GlobalID`; builds with the candidate's
runner short description also contribute their `RunnerID`; those that
additionally share the candidate's `ProjectID` also contribute their
`ProjectRunnerID`), then for each set scans `i = 0, 1, 2, ...` for the
first integer not in it.  Membership in a Go `map[int]bool` is membership
in the corresponding list here; the upward scan is implemented with
explicit fuel large enough to pass every value occurring in the list. -/

/-- An upper bound on the absolute values occurring in `l`. -/
def natMaxAbs (l : List Int) : Nat :=
  l.foldr (fun x m => max x.natAbs m) 0

/-- The upward scan `for i := 0; ; i++ { if !used[i] { return i } }`,
with fuel. -/
def firstFreeAux (used : List Int) : Nat → Nat → Nat
  | 0, i => i
  | n + 1, i => if (i : Int) ∈ used then firstFreeAux used n (i + 1) else i

/-- The smallest natural number not occurring in `used`: the value the
allocator's scan loop returns. -/
def firstFree (used : List Int) : Nat :=
  firstFreeAux used (natMaxAbs used + 2) 0

/-- The `GlobalID`s of the other active builds. -/
def usedGlobals (others : List Build) : List Int :=
  others.map Build.globalID

/-- The `RunnerID`s of the other active builds whose runner short
description equals the candidate's. -/
def usedRunnerIDs (b : Build) (others : List Build) : List Int :=
  (others.filter
    (fun o => o.runner.shortDescription == b.runner.shortDescription)).map
    Build.runnerID

/-- The `ProjectRunnerID`s of the other active builds sharing both the
candidate's runner short description and its `ProjectID`. -/
def usedProjectRunnerIDs (b : Build) (others : List Build) : List Int :=
  (others.filter
    (fun o => o.runner.shortDescription == b.runner.shortDescription &&
              o.projectID == b.projectID)).map
    Build.projectRunnerID

/-- Embeds `Build.AssignID(otherBuilds...)`: writes the three identity
fields of the candidate; the supplied collection is only read. -/
def assignID (b : Build) (others : List Build) : Build :=
  { b with
    globalID := (firstFree (usedGlobals others) : Int),
    runnerID := (firstFree (usedRunnerIDs b others) : Int),
    projectRunnerID := (firstFree (usedProjectRunnerIDs b others) : Int) }

/-! ### Build lifecycle operations -/

/-- Embeds `Build.StartBuild(buildDir)`: stamps the start time, sets the
state to `Pending` and records the workspace directory.  `time.Now()` is
the explicit `now` argument. -/
def startBuild (b : Build) (now : Int) (dir : String) : Build :=
  { b with buildStarted := now, buildState := .pending, buildDir := dir }

/-- Embeds `Build.FinishBuild(buildState, buildMessage, args...)`: sets the
state, prefixes the formatted message with a newline, stamps the finish
time and computes the duration as finish minus start. -/
def finishBuild (b : Build) (now : Int) (st : BuildState) (f : String)
    (args : List FmtArg) : Build :=
  { b with
    buildState := st,
    buildMessage := "\n" ++ sprintf f args,
    buildFinished := now,
    buildDuration := now - b.buildStarted }

/-- One lifecycle mutation of the build record, for reasoning about
sequences of `StartBuild`/`FinishBuild` calls. -/
inductive BuildOp where
  | startOp (now : Int) (dir : String)
  | finishOp (now : Int) (st : BuildState) (f : String) (args : List FmtArg)

/-- Apply one lifecycle operation to a build record. -/
def applyOp (b : Build) : BuildOp → Build
  | .startOp now dir => startBuild b now dir
  | .finishOp now st f args => finishBuild b now st f args

/-! ### Project slug (`ProjectSlug`) -/

/-- The error values `ProjectSlug` can return, one per `errors.New` in the
source (messages elided into constructor names). -/
inductive SlugError where
  | onlyURIReference
  | invalidPath
  | notAValidPath
deriving Repr, DecidableEq

/-- The slug before validity checks: the part of the host before any
colon, joined with the URL path, with a trailing `.git` stripped and the
result cleaned again. -/
def normalizedSlug (host path : String) : String :=
  pathClean (trimSuffix (fpJoin2 (hostFirst host) path) ".git")

/-- The checks of `ProjectSlug` after URL parsing: empty host is an error;
a slug that cleans to `.` is an error; a slug containing the substring
`..` is an error; otherwise the slug is returned. -/
def projectSlugParts (host path : String) : Except SlugError String :=
  if host = "" then .error .onlyURIReference
  else if normalizedSlug host path = "." then .error .invalidPath
  else if strHasSub (normalizedSlug host path).data ['.', '.'] then
    .error .notAValidPath
  else .ok (normalizedSlug host path)

/-- Embeds `Build.ProjectSlug()`: parse the repository URL, then derive
and validate the slug.  (Go's `url.Parse` error branch fires only on
malformed control/escape sequences, which the modelled URL fragment does
not produce.) -/
def projectSlug (b : Build) : Except SlugError String :=
  projectSlugParts (parseURL b.repoURL).host (parseURL b.repoURL).path

/-! ### Status reporter (`SendBuildLog`)

`UpdateBuild` and the `UpdateState` result type live in the repository
outside this excerpt; modelled from the spec: the reporting collaborator
returns success, abort, or a transient-failure signal (`UpdateFailed`)
that asks the reporter to sleep a fixed interval and retry; any
non-failure outcome terminates the loop.  The collaborator's behaviour is
an explicit list of responses, consumed one per call. -/

/-- Result values of the external reporting call. -/
inductive UpdateState where
  | updateSucceeded
  | updateAbort
  | updateFailed
deriving Repr, DecidableEq

/-- The trace payload `SendBuildLog` constructs before its loop: the log
buffer's content, with the build message appended when non-empty. -/
def buildTrace (b : Build) : String :=
  if b.buildMessage ≠ "" then b.buildLog ++ b.buildMessage else b.buildLog

/-- The retry loop of `SendBuildLog`: call the collaborator; any response
other than `UpdateFailed` breaks the loop, `UpdateFailed` sleeps one fixed
interval and retries.  Returns `(calls, sleeps)` when the loop terminates
within the supplied responses, `none` when every supplied response is a
failure (the real loop would still be running). -/
def sendLoop : List UpdateState → Option (Nat × Nat)
  | [] => none
  | r :: rest =>
    if r = .updateFailed then
      match sendLoop rest with
      | none => none
      | some (c, s) => some (c + 1, s + 1)
    else some (1, 0)

/-- Embeds `Build.SendBuildLog()`: the trace payload it sends, and its
loop's call/sleep counts against the given collaborator responses. -/
def sendBuildLog (b : Build) (responses : List UpdateState) :
    String × Option (Nat × Nat) :=
  (buildTrace b, sendLoop responses)

/-! ### Run orchestrator (`Run`)

The `Executor` interface and `GetExecutor` registry live in the repository
outside this excerpt; modelled from the spec: a backend exposes
`Prepare`/`Start`/`Wait` stages that may fail, plus `Finish` and
`Cleanup`; `GetExecutor` is a name→implementation lookup that can come
back empty.  A stage's outcome is an optional error message; `Run`'s
observable behaviour is the updated build, the sequence of invocations it
performs, and the error it returns. -/

/-- The failure behaviour of one executor backend instance: the error each
fallible stage would return if invoked. -/
structure ExecutorBehavior where
  prepareErr : Option String
  startErr : Option String
  waitErr : Option String
deriving Repr, DecidableEq

/-- The invocations `Run` can perform: the five executor lifecycle stages
and a `SendBuildLog` status report. -/
inductive RunEvent where
  | prepare
  | start
  | wait
  | finish
  | cleanup
  | report
deriving Repr, DecidableEq

/-- Embeds `Build.Run()`.  Lookup failure finalizes the build as `Failed`
with an identifying message, reports status once and returns the
`executor not found` error.  Otherwise `err := Prepare; if err == nil
{ err = Start }; if err == nil { err = Wait }` runs, then `Finish` and
`Cleanup` (the source's `executor != nil` guard before `Cleanup` is always
true on this path), and `err` is returned. -/
def runBuild (lookup : String → Option ExecutorBehavior) (b : Build)
    (now : Int) : Build × List RunEvent × Option String :=
  match lookup b.runner.executor with
  | none =>
    let b1 := finishBuild b now .failed "Executor not found: %v"
      [.str b.runner.executor]
    (b1, [.report], some "executor not found")
  | some ex =>
    let e1 := ex.prepareErr
    let r1 := if e1 = none then (ex.startErr, [RunEvent.prepare, RunEvent.start])
              else (e1, [RunEvent.prepare])
    let r2 := if r1.1 = none then (ex.waitErr, r1.2 ++ [RunEvent.wait])
              else r1
    (b, r2.2 ++ [RunEvent.finish, RunEvent.cleanup], r2.1)

/-- An executor registry with no registered backend: every lookup fails. -/
def emptyExecutorLookup : String → Option ExecutorBehavior := fun _ => none

/-- An executor registry resolving every name to the same backend. -/
def constExecutorLookup (ex : ExecutorBehavior) :
    String → Option ExecutorBehavior := fun _ => some ex

/-! ### Active-build registry traces

For the allocator's uniqueness invariant: the owning registry allocates a
new build against a snapshot of the currently active builds (`AssignID`
then register) or retires an active build.  Each build's identity fields
are thus exactly those produced by `AssignID` against the builds active at
its allocation time. -/

/-- One linearized registry operation. -/
inductive RegistryOp where
  | alloc (b : Build)
  | retire (i : Nat)

/-- Apply one registry operation to the list of active builds. -/
def registryStep (active : List Build) : RegistryOp → List Build
  | .alloc b => assignID b active :: active
  | .retire i => active.eraseIdx i

/-- Run a sequence of registry operations from an empty active set. -/
def registryRun (ops : List RegistryOp) : List Build :=
  ops.foldl registryStep []

/-- The identity fields of two distinct simultaneously active builds do
not collide in any of the three scopes. -/
def DistinctIDs (a b : Build) : Prop :=
  a.globalID ≠ b.globalID ∧
  (a.runner.shortDescription = b.runner.shortDescription →
    a.runnerID ≠ b.runnerID) ∧
  (a.runner.shortDescription = b.runner.shortDescription ∧
      a.projectID = b.projectID →
    a.projectRunnerID ≠ b.projectRunnerID)

/-- The allocator's uniqueness invariant over an active-build list. -/
def IDInvariant (l : List Build) : Prop :=
  l.Pairwise DistinctIDs

/-! ### Correctness of the upward scan -/

/-- Every element of `l` has absolute value at most `natMaxAbs l`. -/
theorem mem_le_natMaxAbs {x : Int} {l : List Int} (h : x ∈ l) :
    x.natAbs ≤ natMaxAbs l := by
  induction l with
  | nil => cases h
  | cons a t ih =>
    rcases List.mem_cons.mp h with rfl | h2
    · simp [natMaxAbs]
    · have := ih h2
      simp only [natMaxAbs, List.foldr] at this ⊢
      omega

/-- `natMaxAbs l + 1` never occurs in `l`, so the scan's fuel suffices. -/
theorem natMaxAbs_succ_not_mem (l : List Int) :
    ((natMaxAbs l + 1 : Nat) : Int) ∉ l := by
  intro h
  have := mem_le_natMaxAbs h
  omega

/-- The fueled scan starting at `i` returns the least index `≥ i` outside
`used`, provided some free index lies within the fuel window. -/
theorem firstFreeAux_spec (used : List Int) :
    ∀ (fuel i : Nat), (∃ j : Nat, i ≤ j ∧ j < i + fuel ∧ ((j : Int) ∉ used)) →
      ((firstFreeAux used fuel i : Int) ∉ used ∧
        i ≤ firstFreeAux used fuel i ∧
        ∀ k : Nat, i ≤ k → k < firstFreeAux used fuel i → (k : Int) ∈ used) := by
  intro fuel
  induction fuel with
  | zero =>
    intro i h
    obtain ⟨j, hj1, hj2, _⟩ := h
    exact absurd hj2 (by omega)
  | succ n ih =>
    intro i h
    by_cases hm : (i : Int) ∈ used
    · obtain ⟨j, hj1, hj2, hj3⟩ := h
      have hji : j ≠ i := fun e => hj3 (e ▸ hm)
      have hrec := ih (i + 1) ⟨j, by omega, by omega, hj3⟩
      have hstep : firstFreeAux used (n + 1) i = firstFreeAux used n (i + 1) := by
        simp [firstFreeAux, hm]
      rw [hstep]
      refine ⟨hrec.1, ?_, ?_⟩
      · have := hrec.2.1
        omega
      · intro k hk1 hk2
        rcases Nat.eq_or_lt_of_le hk1 with rfl | hlt
        · exact hm
        · exact hrec.2.2 k (by omega) hk2
    · have hstep : firstFreeAux used (n + 1) i = i := by
        simp [firstFreeAux, hm]
      rw [hstep]
      exact ⟨hm, Nat.le_refl i, fun k hk1 hk2 => absurd hk2 (by omega)⟩

/-- `firstFree used` is not in `used`, and every smaller natural is. -/
theorem firstFree_spec (used : List Int) :
    ((firstFree used : Int) ∉ used) ∧
      ∀ k : Nat, k < firstFree used → (k : Int) ∈ used := by
  have h := firstFreeAux_spec used (natMaxAbs used + 2) 0
    ⟨natMaxAbs used + 1, by omega, by omega, natMaxAbs_succ_not_mem used⟩
  exact ⟨h.1, fun k hk => h.2.2 k (Nat.zero_le k) hk⟩

/-- Integer form of minimality: every non-negative integer below
`firstFree used` occurs in `used`. -/
theorem firstFree_min_int (used : List Int) :
    ∀ k : Int, 0 ≤ k → k < (firstFree used : Int) → k ∈ used := by
  intro k hk1 hk2
  have h3 : k = ((k.toNat : Nat) : Int) := (Int.toNat_of_nonneg hk1).symm
  rw [h3]
  exact (firstFree_spec used).2 k.toNat (by omega)

/-! ### String lemmas -/

/-- Evaluating the orchestrator's not-found format at a symbolic executor
name. -/
theorem sprintf_executor_not_found (s : String) :
    sprintf "Executor not found: %v" [.str s] =
      "Executor not found: " ++ s := by
  cases s with
  | mk data =>
    apply String.ext
    simp [sprintf, sprintfAux, fmtArgToString]

/-- `takeWhile (· ≠ ':')` over a colon-free prefix followed by a colon
keeps exactly the prefix. -/
theorem takeWhile_no_colon_append (l2 : List Char) :
    ∀ l1 : List Char, (∀ c ∈ l1, c ≠ ':') →
      (l1 ++ ':' :: l2).takeWhile (fun c => c != ':') = l1 := by
  intro l1
  induction l1 with
  | nil => intro _; simp [List.takeWhile]
  | cons a t ih =>
    intro h
    have ha : a ≠ ':' := h a (List.mem_cons_self a t)
    simp only [List.cons_append, List.takeWhile_cons]
    simp [ha, ih (fun c hc => h c (List.mem_cons_of_mem a hc))]

/-- `takeWhile (· ≠ ':')` keeps a wholly colon-free list. -/
theorem takeWhile_no_colon (l1 : List Char) (h : ∀ c ∈ l1, c ≠ ':') :
    l1.takeWhile (fun c => c != ':') = l1 := by
  induction l1 with
  | nil => rfl
  | cons a t ih =>
    have ha : a ≠ ':' := h a (List.mem_cons_self a t)
    simp only [List.takeWhile_cons]
    simp [ha, ih (fun c hc => h c (List.mem_cons_of_mem a hc))]

/-- Appending `:port` to a colon-free hostname does not change the part
of the host `ProjectSlug` uses. -/
theorem hostFirst_strip_port (hn rest : String)
    (h : ∀ c ∈ hn.data, c ≠ ':') :
    hostFirst (hn ++ ":" ++ rest) = hostFirst hn := by
  unfold hostFirst
  have hd : (hn ++ ":" ++ rest).data = hn.data ++ ':' :: rest.data := by
    rw [String.data_append, String.data_append]
    simp
  rw [hd, takeWhile_no_colon_append rest.data hn.data h,
    takeWhile_no_colon hn.data h]

/-! ### Claim theorems -/

/-- C1: `AssignID` sets `GlobalID` to the smallest non-negative integer
not used as `GlobalID` by any other build in the collection; `RunnerID` to
the smallest non-negative integer not used as `RunnerID` by any other
build with the candidate's runner short description; `ProjectRunnerID` to
the smallest non-negative integer not used as `ProjectRunnerID` by any
other build sharing both that short description and the candidate's
`ProjectID`.  When the active `GlobalID`s are exactly {0, 2}, the new
build receives `GlobalID = 1`. -/
theorem assignID_smallest_free :
    (∀ (b : Build) (others : List Build),
      (0 ≤ (assignID b others).globalID ∧
        (∀ o ∈ others, (assignID b others).globalID ≠ o.globalID) ∧
        ∀ k : Int, 0 ≤ k → k < (assignID b others).globalID →
          ∃ o ∈ others, o.globalID = k) ∧
      (0 ≤ (assignID b others).runnerID ∧
        (∀ o ∈ others,
          o.runner.shortDescription = b.runner.shortDescription →
          (assignID b others).runnerID ≠ o.runnerID) ∧
        ∀ k : Int, 0 ≤ k → k < (assignID b others).runnerID →
          ∃ o ∈ others,
            o.runner.shortDescription = b.runner.shortDescription ∧
            o.runnerID = k) ∧
      (0 ≤ (assignID b others).projectRunnerID ∧
        (∀ o ∈ others,
          o.runner.shortDescription = b.runner.shortDescription →
          o.projectID = b.projectID →
          (assignID b others).projectRunnerID ≠ o.projectRunnerID) ∧
        ∀ k : Int, 0 ≤ k → k < (assignID b others).projectRunnerID →
          ∃ o ∈ others,
            o.runner.shortDescription = b.runner.shortDescription ∧
            o.projectID = b.projectID ∧ o.projectRunnerID = k)) ∧
    (assignID emptyBuild [{ emptyBuild with globalID := 0 },
        { emptyBuild with globalID := 2 }]).globalID = 1 := by
  constructor
  · intro b others
    refine ⟨⟨Int.ofNat_nonneg _, ?_, ?_⟩, ⟨Int.ofNat_nonneg _, ?_, ?_⟩,
      ⟨Int.ofNat_nonneg _, ?_, ?_⟩⟩
    · intro o ho he
      have he2 : (firstFree (usedGlobals others) : Int) = o.globalID := he
      exact (firstFree_spec (usedGlobals others)).1
        (he2 ▸ List.mem_map_of_mem Build.globalID ho)
    · intro k hk0 hk
      have := firstFree_min_int (usedGlobals others) k hk0 hk
      obtain ⟨o, ho, hoe⟩ := List.mem_map.mp this
      exact ⟨o, ho, hoe⟩
    · intro o ho hsd he
      have hfo : o ∈ others.filter
          (fun o => o.runner.shortDescription == b.runner.shortDescription) :=
        List.mem_filter.mpr ⟨ho, beq_iff_eq.mpr hsd⟩
      have he2 : (firstFree (usedRunnerIDs b others) : Int) = o.runnerID := he
      exact (firstFree_spec (usedRunnerIDs b others)).1
        (he2 ▸ List.mem_map_of_mem Build.runnerID hfo)
    · intro k hk0 hk
      have := firstFree_min_int (usedRunnerIDs b others) k hk0 hk
      obtain ⟨o, ho, hoe⟩ := List.mem_map.mp this
      have hfo := List.mem_filter.mp ho
      exact ⟨o, hfo.1, beq_iff_eq.mp hfo.2, hoe⟩
    · intro o ho hsd hp he
      have hfo : o ∈ others.filter
          (fun o => o.runner.shortDescription == b.runner.shortDescription &&
            o.projectID == b.projectID) :=
        List.mem_filter.mpr ⟨ho, by
          simp only [Bool.and_eq_true, beq_iff_eq]
          exact ⟨hsd, hp⟩⟩
      have he2 : (firstFree (usedProjectRunnerIDs b others) : Int) =
          o.projectRunnerID := he
      exact (firstFree_spec (usedProjectRunnerIDs b others)).1
        (he2 ▸ List.mem_map_of_mem Build.projectRunnerID hfo)
    · intro k hk0 hk
      have := firstFree_min_int (usedProjectRunnerIDs b others) k hk0 hk
      obtain ⟨o, ho, hoe⟩ := List.mem_map.mp this
      have hfo := List.mem_filter.mp ho
      have hb := hfo.2
      simp only [Bool.and_eq_true, beq_iff_eq] at hb
      exact ⟨o, hfo.1, hb.1, hb.2, hoe⟩
  · decide

/-- Witness for C1: at the concrete one-other-build instance, the freshly
assigned `GlobalID` differs from the other build's. -/
theorem assignID_smallest_free_witness :
    (assignID emptyBuild [{ emptyBuild with globalID := 0 }]).globalID ≠
      ({ emptyBuild with globalID := 0 } : Build).globalID :=
  (assignID_smallest_free.1 emptyBuild
      [{ emptyBuild with globalID := 0 }]).1.2.1
    { emptyBuild with globalID := 0 } (List.mem_singleton.mpr rfl)

/-- C10: `AssignID` modifies only the three identity fields of the
candidate: every other field of the record is returned unchanged (the
supplied collection is only read — `assignID` takes it as a value and does
not return it). -/
theorem assignID_frame (b : Build) (others : List Build) :
    (assignID b others).id = b.id ∧
    (assignID b others).projectID = b.projectID ∧
    (assignID b others).repoURL = b.repoURL ∧
    (assignID b others).buildState = b.buildState ∧
    (assignID b others).buildStarted = b.buildStarted ∧
    (assignID b others).buildFinished = b.buildFinished ∧
    (assignID b others).buildDuration = b.buildDuration ∧
    (assignID b others).buildMessage = b.buildMessage ∧
    (assignID b others).buildDir = b.buildDir ∧
    (assignID b others).hostname = b.hostname ∧
    (assignID b others).runner = b.runner ∧
    (assignID b others).buildLog = b.buildLog :=
  ⟨rfl, rfl, rfl, rfl, rfl, rfl, rfl, rfl, rfl, rfl, rfl, rfl⟩

/-- One registry operation preserves the allocator's uniqueness
invariant: an allocation's three identities avoid every active build's
identity in the matching scope, and retiring a build only shrinks the
active list. -/
theorem registryStep_preserves (active : List Build) (op : RegistryOp)
    (h : IDInvariant active) : IDInvariant (registryStep active op) := by
  cases op with
  | retire i =>
    exact h.sublist (List.eraseIdx_sublist active i)
  | alloc b =>
    refine List.Pairwise.cons ?_ h
    intro o ho
    refine ⟨?_, ?_, ?_⟩
    · intro he
      have he2 : (firstFree (usedGlobals active) : Int) = o.globalID := he
      exact (firstFree_spec (usedGlobals active)).1
        (he2 ▸ List.mem_map_of_mem Build.globalID ho)
    · intro hsd he
      have hsd2 : o.runner.shortDescription = b.runner.shortDescription :=
        hsd.symm
      have hfo : o ∈ active.filter
          (fun o => o.runner.shortDescription == b.runner.shortDescription) :=
        List.mem_filter.mpr ⟨ho, beq_iff_eq.mpr hsd2⟩
      have he2 : (firstFree (usedRunnerIDs b active) : Int) = o.runnerID := he
      exact (firstFree_spec (usedRunnerIDs b active)).1
        (he2 ▸ List.mem_map_of_mem Build.runnerID hfo)
    · rintro ⟨hsd, hp⟩ he
      have hsd2 : o.runner.shortDescription = b.runner.shortDescription :=
        hsd.symm
      have hp2 : o.projectID = b.projectID := hp.symm
      have hfo : o ∈ active.filter
          (fun o => o.runner.shortDescription == b.runner.shortDescription &&
            o.projectID == b.projectID) :=
        List.mem_filter.mpr ⟨ho, by
          simp only [Bool.and_eq_true, beq_iff_eq]
          exact ⟨hsd2, hp2⟩⟩
      have he2 : (firstFree (usedProjectRunnerIDs b active) : Int) =
          o.projectRunnerID := he
      exact (firstFree_spec (usedProjectRunnerIDs b active)).1
        (he2 ▸ List.mem_map_of_mem Build.projectRunnerID hfo)

/-- The uniqueness invariant holds after any prefix of registry
operations, from any invariant-satisfying start state. -/
theorem registryRun_aux : ∀ (ops : List RegistryOp) (s : List Build),
    IDInvariant s → IDInvariant (ops.foldl registryStep s)
  | [], _, h => h
  | op :: ops, s, h => registryRun_aux ops _ (registryStep_preserves s op h)

/-- C2: in any active-build set in which each build's identity fields were
produced by `AssignID` against the snapshot of builds active at its
allocation time (a linearized sequence of allocate/retire registry
operations), no two active builds share a `GlobalID`, no two with equal
runner short description share a `RunnerID`, and no two with equal runner
short description and equal `ProjectID` share a `ProjectRunnerID`. -/
theorem registryRun_invariant (ops : List RegistryOp) :
    IDInvariant (registryRun ops) :=
  registryRun_aux ops [] List.Pairwise.nil

/-- C3: `FinishBuild(state, format, args...)` sets `BuildState` to the
given state, sets `BuildMessage` to a newline followed by the formatted
text (`FinishBuild(Failed, "boom %d", 7)` yields `"\nboom 7"`), sets
`BuildFinished` to the current time and sets `BuildDuration` to
`BuildFinished - BuildStarted`. -/
theorem finishBuild_fields :
    (∀ (b : Build) (now : Int) (st : BuildState) (f : String)
        (args : List FmtArg),
      (finishBuild b now st f args).buildState = st ∧
      (finishBuild b now st f args).buildMessage = "\n" ++ sprintf f args ∧
      (finishBuild b now st f args).buildFinished = now ∧
      (finishBuild b now st f args).buildStarted = b.buildStarted ∧
      (finishBuild b now st f args).buildDuration =
        (finishBuild b now st f args).buildFinished -
          (finishBuild b now st f args).buildStarted) ∧
    (finishBuild emptyBuild 7 .failed "boom %d" [.int 7]).buildMessage =
      "\nboom 7" :=
  ⟨fun _ _ _ _ _ => ⟨rfl, rfl, rfl, rfl, rfl⟩, by decide⟩

/-- C4 counterexample: on `https://h/a..b` the normalized slug is
`h/a..b`, none of whose path segments is the parent-directory segment
`..`, yet `ProjectSlug` returns an error instead of the slug — the
claim's `otherwise returns the slug` clause fails, because the code
rejects any occurrence of the substring `..`. -/
theorem projectSlug_rejects_inner_dotdot :
    projectSlug { emptyBuild with repoURL := "https://h/a..b" } =
      Except.error SlugError.notAValidPath ∧
    normalizedSlug (parseURL "https://h/a..b").host
        (parseURL "https://h/a..b").path = "h/a..b" ∧
    (splitOnChar '/' ("h/a..b").data).all
      (fun seg => !(seg == ['.', '.'])) = true :=
  ⟨rfl, rfl, by decide⟩

/-- C4 amended: `ProjectSlug` maps
`https://gitlab.example.com/group/project.git` to
`gitlab.example.com/group/project`; errors whenever the parsed host is
empty (including bare relative references); errors when the normalized
slug collapses to `.`; errors when the normalized slug contains the
two-character substring `..` anywhere (not only as a full
parent-directory segment); and otherwise returns the host joined with the
path, trailing `.git` stripped and normalized. -/
theorem projectSlug_checks :
    (projectSlug { emptyBuild with
        repoURL := "https://gitlab.example.com/group/project.git" } =
      Except.ok "gitlab.example.com/group/project") ∧
    (projectSlug { emptyBuild with repoURL := "group/project" } =
      Except.error SlugError.onlyURIReference) ∧
    (projectSlug { emptyBuild with repoURL := "https://h/../../x" } =
      Except.error SlugError.notAValidPath) ∧
    (projectSlug { emptyBuild with repoURL := "https://.git" } =
      Except.error SlugError.invalidPath) ∧
    (∀ b : Build, (parseURL b.repoURL).host = "" →
      projectSlug b = Except.error SlugError.onlyURIReference) ∧
    (∀ host path : String, host ≠ "" → normalizedSlug host path = "." →
      projectSlugParts host path = Except.error SlugError.invalidPath) ∧
    (∀ host path : String, host ≠ "" → normalizedSlug host path ≠ "." →
      strHasSub (normalizedSlug host path).data ['.', '.'] = true →
      projectSlugParts host path = Except.error SlugError.notAValidPath) ∧
    (∀ host path : String, host ≠ "" → normalizedSlug host path ≠ "." →
      strHasSub (normalizedSlug host path).data ['.', '.'] = false →
      projectSlugParts host path = Except.ok (normalizedSlug host path)) := by
  refine ⟨rfl, rfl, rfl, rfl, ?_, ?_, ?_, ?_⟩
  · intro b h
    simp [projectSlug, projectSlugParts, h]
  · intro host path h1 h2
    simp [projectSlugParts, h1, h2]
  · intro host path h1 h2 h3
    simp [projectSlugParts, h1, h2, h3]
  · intro host path h1 h2 h3
    simp [projectSlugParts, h1, h2, h3]

/-- Witness for the amended C4: the bare relative reference
`group/project` parses with an empty host and is rejected. -/
theorem projectSlug_checks_witness :
    projectSlug { emptyBuild with repoURL := "group/project" } =
      Except.error SlugError.onlyURIReference :=
  projectSlug_checks.2.2.2.2.1
    { emptyBuild with repoURL := "group/project" } rfl

/-- C5: when the configured executor name does not resolve, `Run`
finalizes the build as `Failed` with a message naming the missing
executor, reports status exactly once, returns a non-nil error, and
invokes none of `Prepare`, `Start`, `Wait`, `Finish`, `Cleanup`. -/
theorem run_unresolved_executor (lookup : String → Option ExecutorBehavior)
    (b : Build) (now : Int) (h : lookup b.runner.executor = none) :
    (runBuild lookup b now).1.buildState = BuildState.failed ∧
    (runBuild lookup b now).1.buildMessage =
      "\n" ++ ("Executor not found: " ++ b.runner.executor) ∧
    (runBuild lookup b now).2.2 ≠ none ∧
    (runBuild lookup b now).2.1 = [RunEvent.report] ∧
    (∀ e : RunEvent, e ≠ RunEvent.report →
      e ∉ (runBuild lookup b now).2.1) := by
  have hrun : runBuild lookup b now =
      (finishBuild b now .failed "Executor not found: %v"
        [.str b.runner.executor],
       [RunEvent.report], some "executor not found") := by
    simp [runBuild, h]
  rw [hrun]
  refine ⟨rfl, ?_, by simp, rfl, ?_⟩
  · show "\n" ++ sprintf "Executor not found: %v" [.str b.runner.executor] = _
    rw [sprintf_executor_not_found]
  · intro e he hmem
    simp only [List.mem_singleton] at hmem
    exact he hmem

/-- Witness for C5: against an empty executor registry, the build ends
`Failed` and `Run` returns an error. -/
theorem run_unresolved_executor_witness :
    ((runBuild emptyExecutorLookup emptyBuild 0).1.buildState =
      BuildState.failed) ∧
    (runBuild emptyExecutorLookup emptyBuild 0).2.2 ≠ none :=
  ⟨(run_unresolved_executor emptyExecutorLookup emptyBuild 0 rfl).1,
    (run_unresolved_executor emptyExecutorLookup emptyBuild 0 rfl).2.2.1⟩

/-- C6: once the executor resolves, `Prepare` runs; `Start` and `Wait`
are skipped after a `Prepare` failure; `Wait` is skipped after a `Start`
failure; `Finish` and `Cleanup` are each invoked exactly once in every
case; and `Run` returns the first failing stage's error, or the (possibly
nil) `Wait` outcome when `Prepare` and `Start` succeed. -/
theorem run_stage_sequence (lookup : String → Option ExecutorBehavior)
    (b : Build) (now : Int) (ex : ExecutorBehavior)
    (h : lookup b.runner.executor = some ex) :
    ((runBuild lookup b now).2.1.count RunEvent.prepare = 1 ∧
      (runBuild lookup b now).2.1.count RunEvent.finish = 1 ∧
      (runBuild lookup b now).2.1.count RunEvent.cleanup = 1) ∧
    (∀ e, ex.prepareErr = some e →
      RunEvent.start ∉ (runBuild lookup b now).2.1 ∧
      RunEvent.wait ∉ (runBuild lookup b now).2.1 ∧
      (runBuild lookup b now).2.2 = some e) ∧
    (∀ e, ex.prepareErr = none → ex.startErr = some e →
      RunEvent.start ∈ (runBuild lookup b now).2.1 ∧
      RunEvent.wait ∉ (runBuild lookup b now).2.1 ∧
      (runBuild lookup b now).2.2 = some e) ∧
    (ex.prepareErr = none → ex.startErr = none →
      RunEvent.start ∈ (runBuild lookup b now).2.1 ∧
      RunEvent.wait ∈ (runBuild lookup b now).2.1 ∧
      (runBuild lookup b now).2.2 = ex.waitErr) := by
  obtain ⟨pe, se, we⟩ := ex
  cases pe with
  | some e0 =>
    simp [runBuild, h]
  | none =>
    cases se with
    | some e1 =>
      simp [runBuild, h]
    | none =>
      simp [runBuild, h]

/-- Witness for C6: a backend whose `Prepare` fails never reaches
`Start`, and its error is returned. -/
theorem run_stage_sequence_witness :
    RunEvent.start ∉
      (runBuild (constExecutorLookup ⟨some "boom", none, none⟩)
        emptyBuild 0).2.1 ∧
    (runBuild (constExecutorLookup ⟨some "boom", none, none⟩)
      emptyBuild 0).2.2 = some "boom" :=
  ⟨((run_stage_sequence (constExecutorLookup ⟨some "boom", none, none⟩)
      emptyBuild 0 ⟨some "boom", none, none⟩ rfl).2.1 "boom" rfl).1,
    ((run_stage_sequence (constExecutorLookup ⟨some "boom", none, none⟩)
      emptyBuild 0 ⟨some "boom", none, none⟩ rfl).2.1 "boom" rfl).2.2⟩

/-- The reporter's loop against `n` transient failures followed by any
non-failure response makes `n + 1` calls and sleeps `n` times. -/
theorem sendLoop_replicate (n : Nat) (r : UpdateState)
    (rest : List UpdateState) (h : r ≠ .updateFailed) :
    sendLoop (List.replicate n .updateFailed ++ r :: rest) =
      some (n + 1, n) := by
  induction n with
  | zero => simp [sendLoop, h]
  | succ m ih => simp [List.replicate_succ, sendLoop, ih]

/-- C7: `SendBuildLog` sends the log content concatenated with the build
message when the message is non-empty (just the log otherwise), and
against `n` consecutive `Retry` responses followed by a non-`Retry` one
it sleeps the fixed interval exactly `n` times, makes `n + 1` reporting
calls, and terminates. -/
theorem sendBuildLog_retry (b : Build) (n : Nat) (r : UpdateState)
    (rest : List UpdateState) (h : r ≠ .updateFailed) :
    (sendBuildLog b (List.replicate n .updateFailed ++ r :: rest)).1 =
      (if b.buildMessage = "" then b.buildLog
       else b.buildLog ++ b.buildMessage) ∧
    (sendBuildLog b (List.replicate n .updateFailed ++ r :: rest)).2 =
      some (n + 1, n) := by
  constructor
  · show buildTrace b = _
    by_cases hm : b.buildMessage = "" <;> simp [buildTrace, hm]
  · exact sendLoop_replicate n r rest h

/-- Witness for C7: three retries then success yield four calls and three
sleeps. -/
theorem sendBuildLog_retry_witness :
    (sendBuildLog { emptyBuild with buildLog := "log", buildMessage := "m" }
      (List.replicate 3 UpdateState.updateFailed ++
        [UpdateState.updateSucceeded])).2 = some (4, 3) :=
  (sendBuildLog_retry
    { emptyBuild with buildLog := "log", buildMessage := "m" } 3
    .updateSucceeded [] (by decide)).2

/-- C8 counterexample: a build already in the terminal state `Success`
moves to `Failed` under one further `FinishBuild` operation — terminal
states are not absorbing under arbitrary operation sequences. -/
theorem buildState_not_absorbing :
    ({ emptyBuild with buildState := BuildState.success } : Build).buildState =
      BuildState.success ∧
    (applyOp { emptyBuild with buildState := BuildState.success }
        (BuildOp.finishOp 5 BuildState.failed "x" [])).buildState =
      BuildState.failed ∧
    BuildState.failed ≠ BuildState.success :=
  ⟨rfl, rfl, by decide⟩

/-- C8 amended: `StartBuild` unconditionally sets `BuildState` to
`Pending` and `FinishBuild` unconditionally sets it to its state
argument; forward-only progression with absorbing terminal states
therefore holds not for arbitrary operation sequences but for the
orchestrated one — a `StartBuild` followed by one `FinishBuild` with a
terminal state passes through `Pending` and ends in `Failed` or
`Success`. -/
theorem buildState_forward_restricted :
    (∀ (b : Build) (now : Int) (dir : String),
      (applyOp b (BuildOp.startOp now dir)).buildState =
        BuildState.pending) ∧
    (∀ (b : Build) (now : Int) (st : BuildState) (f : String)
        (args : List FmtArg),
      (applyOp b (BuildOp.finishOp now st f args)).buildState = st) ∧
    (∀ (b : Build) (now now2 : Int) (dir : String) (st : BuildState)
        (f : String) (args : List FmtArg),
      st = BuildState.failed ∨ st = BuildState.success →
      (applyOp b (BuildOp.startOp now dir)).buildState =
        BuildState.pending ∧
      ((applyOp (applyOp b (BuildOp.startOp now dir))
          (BuildOp.finishOp now2 st f args)).buildState =
            BuildState.failed ∨
        (applyOp (applyOp b (BuildOp.startOp now dir))
          (BuildOp.finishOp now2 st f args)).buildState =
            BuildState.success)) :=
  ⟨fun _ _ _ => rfl, fun _ _ _ _ _ => rfl,
    fun _ _ _ _ st _ _ hst => ⟨rfl, by
      cases hst with
      | inl h => exact Or.inl (by simp [applyOp, finishBuild, h])
      | inr h => exact Or.inr (by simp [applyOp, finishBuild, h])⟩⟩

/-- Witness for the amended C8: the concrete start-then-finish sequence
ends in a terminal state. -/
theorem buildState_forward_restricted_witness :
    (applyOp (applyOp emptyBuild (BuildOp.startOp 1 "d"))
        (BuildOp.finishOp 2 BuildState.success "ok" [])).buildState =
      BuildState.failed ∨
    (applyOp (applyOp emptyBuild (BuildOp.startOp 1 "d"))
        (BuildOp.finishOp 2 BuildState.success "ok" [])).buildState =
      BuildState.success :=
  (buildState_forward_restricted.2.2 emptyBuild 1 2 "d" BuildState.success
    "ok" [] (Or.inr rfl)).2

/-- C9: when the parsed host carries a `:port` suffix after a colon-free
hostname, `ProjectSlug` behaves exactly as with the bare hostname — the
port never reaches the returned slug; concretely,
`https://gitlab.example.com:8080/group/project.git` still yields
`gitlab.example.com/group/project`. -/
theorem projectSlug_ignores_port :
    (∀ hn rest path : String, hn ≠ "" → (∀ c ∈ hn.data, c ≠ ':') →
      projectSlugParts (hn ++ ":" ++ rest) path =
        projectSlugParts hn path) ∧
    (projectSlug { emptyBuild with
        repoURL := "https://gitlab.example.com:8080/group/project.git" } =
      Except.ok "gitlab.example.com/group/project") := by
  constructor
  · intro hn rest path hne h
    have hh := hostFirst_strip_port hn rest h
    have hne2 : (hn ++ ":" ++ rest) ≠ "" := by
      intro he
      have hdat : (hn ++ ":" ++ rest).data = [] := by rw [he]
      rw [String.data_append, String.data_append] at hdat
      simp at hdat
    simp only [projectSlugParts]
    rw [if_neg hne2, if_neg hne]
    simp only [normalizedSlug, hh]
  · rfl

/-- Witness for C9: dropping the port `8080` from host `h` leaves the
slug computation unchanged. -/
theorem projectSlug_ignores_port_witness :
    projectSlugParts ("h" ++ ":" ++ "8080") "/x" =
      projectSlugParts "h" "/x" :=
  projectSlug_ignores_port.1 "h" "8080" "/x" (by decide) (by decide)

end BuildCore
